import Mathlib

/-!
Verification of the ai_publicist frontend core against its specification.

The development shallowly embeds the two stateful components of the
frontend (the connection/session handling and the conversation pipeline
in App.jsx, RetroDevice.jsx, InputArea.jsx, MessageDisplay.jsx and
chatApi.js) and the stateless content parser (the fenced-code-block
scanner in MessageDisplay's formatMessage).  Message text is modelled as
a list of characters; the JS regex loop is modelled as an explicit
left-to-right scanner with the same matching semantics.
-/

/-- The backtick character, the fence delimiter of the source regex. -/
def btick : Char := Char.ofNat 96

/-- The JS regex word class used by the language capture: ASCII letters,
digits and underscore. -/
def isWordChar (c : Char) : Bool := c.isAlpha || c.isDigit || c == '_'

/-- Whether the text begins with a triple backtick. -/
def startsTriple (l : List Char) : Bool :=
  match l with
  | a :: b :: c :: _ => a == btick && b == btick && c == btick
  | _ => false

/-- Whether the text contains a triple backtick anywhere; this is the
content.includes test in formatMessage. -/
def hasTriple : List Char → Bool
  | [] => false
  | c :: l => startsTriple (c :: l) || hasTriple l

/-- Whether the last character of the text is a backtick. -/
def endsBt : List Char → Bool
  | [] => false
  | [c] => c == btick
  | _ :: c :: l => endsBt (c :: l)

/-- The lazy group of the fence regex: split the text at the earliest
triple backtick, returning the part before it and the part after it. -/
def splitAtTriple : List Char → Option (List Char × List Char)
  | [] => none
  | c :: l =>
    if startsTriple (c :: l) then some ([], l.drop 2)
    else (splitAtTriple l).map (fun p => (c :: p.1, p.2))

/-- One attempt of the fence regex anchored at the start of the text:
a triple backtick, a greedy run of word characters (the language tag),
a newline, then the lazily matched body up to the earliest closing
triple backtick.  Returns the language, the body and the remainder. -/
def matchAt (l : List Char) : Option (List Char × List Char × List Char) :=
  if startsTriple l then
    let r := l.drop 3
    let lang := r.takeWhile isWordChar
    let r2 := r.dropWhile isWordChar
    if r2.head? = some '\n' then
      (splitAtTriple r2.tail).map (fun p => (lang, p.1, p.2))
    else none
  else none

/-- A successful regex match: the text before the match, the captured
language tag, the captured body, and the text after the match. -/
structure FenceMatch where
  pre : List Char
  lang : List Char
  body : List Char
  rest : List Char
deriving DecidableEq

/-- The leftmost match of the fence regex, as regex exec finds it. -/
def findFence : List Char → Option FenceMatch
  | [] => none
  | c :: l =>
    match matchAt (c :: l) with
    | some (lang, body, rest) => some ⟨[], lang, body, rest⟩
    | none => (findFence l).map (fun m => ⟨c :: m.pre, m.lang, m.body, m.rest⟩)

/-- One parsed content segment: either a stretch of plain text (kept
here in raw form, before the line-break and emphasis substitutions the
renderer applies), or a fenced code block with its language, its raw
body and the isTooLong flag that drives default collapsing. -/
inductive Segment
  | text (raw : List Char)
  | code (language : List Char) (body : List Char) (tooLong : Bool)
deriving DecidableEq

/-- JS String.split on newline: the body split into lines, keeping a
trailing empty line when the body ends with a newline. -/
def splitNl : List Char → List (List Char)
  | [] => [[]]
  | c :: l =>
    if c == '\n' then [] :: splitNl l
    else
      match splitNl l with
      | h :: t => (c :: h) :: t
      | [] => [[c]]

/-- The default language tag used when the capture is empty. -/
def defaultLang : List Char := ['t', 'e', 'x', 't']

/-- The code segment built from a match, exactly as the source builds
it: empty language capture defaults to text, and the block is too long
when its split lines number more than 10. -/
def codeSegOf (lang body : List Char) : Segment :=
  Segment.code (if lang.isEmpty then defaultLang else lang) body
    (decide (10 < (splitNl body).length))

/-- The regex exec loop of formatMessage, with explicit fuel; one unit
of fuel is spent per match, and a match consumes at least seven
characters, so fuel beyond the input length never runs out. -/
def parseSegsF : Nat → List Char → List Segment
  | 0, _ => []
  | fuel + 1, l =>
    match findFence l with
    | none => if l.isEmpty then [] else [Segment.text l]
    | some m =>
      (if m.pre.isEmpty then [] else [Segment.text m.pre]) ++
        codeSegOf m.lang m.body :: parseSegsF fuel m.rest

/-- The segment list produced by the code-block branch of
formatMessage. -/
def parseSegments (l : List Char) : List Segment :=
  parseSegsF (l.length + 1) l

/-- formatMessage from MessageDisplay: empty content yields nothing;
content with a triple backtick goes through the regex loop; anything
else is a single text span. -/
def formatMessage (content : List Char) : List Segment :=
  if content.isEmpty then []
  else if hasTriple content then parseSegments content
  else [Segment.text content]

/-- The bodies of the code segments, in order. -/
def codeBodies : List Segment → List (List Char)
  | [] => []
  | Segment.code _ b _ :: r => b :: codeBodies r
  | Segment.text _ :: r => codeBodies r

/-- The concatenated raw content of the text segments, in order. -/
def textConcat : List Segment → List Char
  | [] => []
  | Segment.text t :: r => t ++ textConcat r
  | Segment.code _ _ _ :: r => textConcat r

/-- A well-formed fenced block, given by its language tag and its raw
inner content. -/
structure Fence where
  lang : List Char
  body : List Char
deriving DecidableEq

/-- The concrete text of a fenced block: triple backtick, language tag,
newline, body, closing triple backtick. -/
def renderFence (f : Fence) : List Char :=
  btick :: btick :: btick :: (f.lang ++ '\n' :: (f.body ++ [btick, btick, btick]))

/-- A message text assembled from alternating plain-text gaps and
fenced blocks, ending with a trailing plain-text gap. -/
def render : List (List Char × Fence) → List Char → List Char
  | [], tl => tl
  | (t, f) :: ps, tl => t ++ renderFence f ++ render ps tl

/-- Well-formedness of one fenced block: the language tag is made of
word characters, and the body neither contains a triple backtick nor
ends in a backtick that would abut the closing fence. -/
def wfFence (f : Fence) : Bool :=
  f.lang.all isWordChar && !hasTriple f.body && !endsBt f.body

/-- Well-formedness of an assembled message: every gap is free of
triple backticks and every fenced block is well formed. -/
def wfInput (ps : List (List Char × Fence)) (tl : List Char) : Bool :=
  ps.all (fun p => !hasTriple p.1 && wfFence p.2) && !hasTriple tl

/-- The segments the parse is expected to produce for the gap/fence
pairs: each nonempty gap as one text segment, each fence as one code
segment. -/
def chunkSegments : List (List Char × Fence) → List Segment
  | [] => []
  | (t, f) :: ps =>
    (if t.isEmpty then [] else [Segment.text t]) ++ codeSegOf f.lang f.body :: chunkSegments ps

/-- The concatenation of the plain-text gaps, that is, the original
message with the fenced regions removed. -/
def textsOf : List (List Char × Fence) → List Char
  | [] => []
  | (t, _) :: ps => t ++ textsOf ps

/-- Concrete gap/fence decomposition used by the C2 witness. -/
def c2ps : List (List Char × Fence) :=
  [(String.toList ("intro\n"), ⟨String.toList ("js"), String.toList ("a\nb\n")⟩),
    (String.toList ("mid"), ⟨[], String.toList ("x")⟩)]

/-- Concrete complete fence preceding the dangling opener in the C9
witness. -/
def c9ps : List (List Char × Fence) :=
  [(String.toList ("ok "), ⟨String.toList ("js"), String.toList ("q")⟩)]

/-- Message roles as produced by the pipeline; typing is the synthetic
view entry of MessageDisplay. -/
inductive Role
  | user
  | assistant
  | typing
deriving DecidableEq

/-- One entry of the message log of App.jsx. -/
structure ChatMsg where
  role : Role
  content : String
deriving DecidableEq

/-- The connectionError values App.jsx stores and MessageDisplay reads
as connectionStatus. -/
inductive ConnStatus
  | errorStatus
  | disconnectedStatus
  | timeoutStatus
deriving DecidableEq

/-- The React state of App.jsx, together with the presence of the chat
client reference. -/
structure AppState where
  messages : List ChatMsg
  isConnected : Bool
  isWaitingForResponse : Bool
  isReconnecting : Bool
  connectionError : Option ConnStatus
  hasClient : Bool
deriving DecidableEq

/-- The connectivity enum of the specification, derived from the two
booleans the source keeps: the Reconnecting phase is isReconnecting,
and Connected additionally needs isConnected. -/
inductive Connectivity
  | connected
  | disconnected
  | reconnecting
deriving DecidableEq

/-- The connectivity phase of a state. -/
def connectivity (s : AppState) : Connectivity :=
  if s.isReconnecting then Connectivity.reconnecting
  else if s.isConnected then Connectivity.connected
  else Connectivity.disconnected

/-- ERROR_MESSAGES.GENERAL from utils/constants; the same string in
both constants variants of the repository. -/
def ERROR_GENERAL : String :=
  "I encountered an error while generating the response. Please try again."

/-- ERROR_MESSAGES.DISCONNECTED from utils/constants. -/
def ERROR_DISCONNECTED : String :=
  "The connection to the server was lost. Please try again when reconnected."

/-- ERROR_MESSAGES.TIMEOUT from utils/constants; the other constants
variant words it differently, but in both it differs from GENERAL. -/
def ERROR_TIMEOUT : String :=
  "The request took too long to process. Please try a simpler query."

/-- The fixed timeout, in milliseconds, that chatApi binds to the send
fetch through AbortSignal.timeout. -/
def clientTimeoutMs : Nat := 60000

/-- The disabled condition of the InputArea text field and Enter key:
submission is blocked while disconnected, while a request is pending,
and while reconnecting.  The send button adds a nonempty-input check
that handleSubmit repeats. -/
def inputDisabled (s : AppState) : Bool :=
  !s.isConnected || s.isWaitingForResponse || s.isReconnecting

/-- The synchronous head of App.sendMessage, up to the await on the
external send: the guard on the client reference and connectivity, the
append of the user message and the raising of the pending flag.  The
second component is the payload handed to the external send operation,
none when the send is not invoked. -/
def sendMessageEntry (s : AppState) (content : String) : AppState × Option String :=
  if !s.hasClient || !s.isConnected then
    ({ s with connectionError := some ConnStatus.disconnectedStatus }, none)
  else
    ({ s with
        messages := s.messages ++ [⟨Role.user, content⟩],
        isWaitingForResponse := true },
      some content)

/-- JS truthiness of input.trim(): the trimmed input is empty exactly
when every character of the input is whitespace. -/
def isBlank (s : String) : Bool := s.toList.all Char.isWhitespace

/-- handleSubmit of RetroDevice: forwards to the send operation only
when the trimmed input is nonempty. -/
def handleSubmit (s : AppState) (input : String) : AppState × Option String :=
  if isBlank input then (s, none) else sendMessageEntry s input

/-- The complete submission operation as the user can trigger it: the
InputArea gate, then handleSubmit, then the head of App.sendMessage. -/
def submit (s : AppState) (input : String) : AppState × Option String :=
  if inputDisabled s then (s, none) else handleSubmit s input

/-- The response body of the chat endpoint as the client reads it. -/
structure ChatData where
  content : Option String
  session_id : Option String
deriving DecidableEq

/-- The failures chatApi.sendMessage can propagate: the rejection of
the timed-out or otherwise failed fetch, or the error thrown on a
non-ok response. -/
inductive SendErr
  | timeoutErr
  | networkErr
  | apiErr (status : Nat)
deriving DecidableEq

/-- The outcome of the send fetch: resolved with a response, or
rejected, timed out or not. -/
inductive FetchSendResult
  | resolved (ok : Bool) (status : Nat) (data : ChatData)
  | rejected (timedOut : Bool)

/-- chatApi.sendMessage viewed from the caller: a rejection, timeout
included, is rethrown; a non-ok response becomes a thrown error; an ok
response yields its data. -/
def apiSendMessage : FetchSendResult → Except SendErr ChatData
  | FetchSendResult.rejected true => Except.error SendErr.timeoutErr
  | FetchSendResult.rejected false => Except.error SendErr.networkErr
  | FetchSendResult.resolved ok st data =>
    if !ok then Except.error (SendErr.apiErr st) else Except.ok data

/-- JS truthiness of response.content: present and nonempty. -/
def contentTruthy : Option String → Bool
  | some s => !(s == "")
  | none => false

/-- The continuation of App.sendMessage after the await: on a truthy
content, append the assistant reply; on a falsy content or a thrown
error, record the error status and append the GENERAL error message;
either way clear the pending flag. -/
def resolveSend (s : AppState) (res : Except SendErr ChatData) : AppState :=
  match res with
  | Except.ok data =>
    let s1 := { s with isWaitingForResponse := false }
    if contentTruthy data.content then
      { s1 with messages := s1.messages ++ [⟨Role.assistant, data.content.getD ("")⟩] }
    else
      { s1 with
          connectionError := some ConnStatus.errorStatus,
          messages := s1.messages ++ [⟨Role.assistant, ERROR_GENERAL⟩] }
  | Except.error _ =>
    { s with
        isWaitingForResponse := false,
        connectionError := some ConnStatus.errorStatus,
        messages := s.messages ++ [⟨Role.assistant, ERROR_GENERAL⟩] }

/-- A full submission round: the submission, and, when the external
send was invoked, its resolution against the given fetch outcome. -/
def sendRound (s : AppState) (input : String) (f : FetchSendResult) : AppState :=
  match submit s input with
  | (s1, none) => s1
  | (s1, some _) => resolveSend s1 (apiSendMessage f)

/-- The outcome of one health probe as the polling interval sees it:
a status string, or a thrown probe. -/
inductive ProbeOutcome
  | status (s : String)
  | threw
deriving DecidableEq

/-- One tick of the 30-second health polling interval in App.jsx. -/
def pollHealth (st : AppState) (p : ProbeOutcome) : AppState :=
  if st.hasClient && !st.isReconnecting then
    match p with
    | ProbeOutcome.status h =>
      if !(h == "ok") && st.isConnected then
        { st with isConnected := false, connectionError := some ConnStatus.disconnectedStatus }
      else if (h == "ok") && !st.isConnected then
        { st with isConnected := true, connectionError := none }
      else st
    | ProbeOutcome.threw =>
      if st.isConnected then
        { st with isConnected := false, connectionError := some ConnStatus.errorStatus }
      else st
  else st

/-- The error string MessageDisplay derives from its connectionStatus
prop. -/
def errorMessageFor : Option ConnStatus → Option String
  | some ConnStatus.errorStatus => some ERROR_GENERAL
  | some ConnStatus.disconnectedStatus => some ERROR_DISCONNECTED
  | some ConnStatus.timeoutStatus => some ERROR_TIMEOUT
  | none => none

/-- The display list before error injection: the log plus the synthetic
typing entry while a request is pending and not reconnecting. -/
def displayBase (messages : List ChatMsg) (isWaiting isReconnecting : Bool) : List ChatMsg :=
  messages ++ (if isWaiting && !isReconnecting then [⟨Role.typing, ""⟩] else [])

/-- The displayed message list of MessageDisplay: the base list, plus
the derived error message appended unless some assistant message in the
whole list already carries the same content. -/
def displayMessages (messages : List ChatMsg) (isWaiting isReconnecting : Bool)
    (errMsg : Option String) : List ChatMsg :=
  let d := displayBase messages isWaiting isReconnecting
  match errMsg with
  | none => d
  | some e =>
    if d.any (fun m => m.role == Role.assistant && m.content == e) then d
    else d ++ [⟨Role.assistant, e⟩]

/-- The health response body as parsed JSON: either field may be
absent. -/
structure HealthBody where
  status : Option String
  message : Option String
deriving DecidableEq

/-- The outcome of the health fetch: resolved with a status code and a
body whose JSON parse may itself fail, or rejected with an error
message. -/
inductive HealthFetch
  | resolved (ok : Bool) (statusCode : Nat) (body : Except String HealthBody)
  | rejected (errMsg : String)

/-- chatApi.checkHealth: a rejected fetch, a non-ok response or a
failed body parse is caught and mapped to an error status with a
message; an ok response returns the parsed body verbatim. -/
def checkHealth : HealthFetch → HealthBody
  | HealthFetch.rejected m => ⟨some ("error"), some m⟩
  | HealthFetch.resolved ok code body =>
    if !ok then
      ⟨some ("error"), some ("Health check failed with status " ++ toString code)⟩
    else
      match body with
      | Except.ok b => b
      | Except.error m => ⟨some ("error"), some m⟩

/-- A connected, idle, initialized state with an empty log. -/
def connectedState : AppState :=
  { messages := []
    isConnected := true
    isWaitingForResponse := false
    isReconnecting := false
    connectionError := none
    hasClient := true }

example : formatMessage (String.toList ("```js\na\nb\n```"))
    = [Segment.code (String.toList ("js")) (String.toList ("a\nb\n")) false] := by decide

example : splitNl (String.toList ("a\nb\n")) = [['a'], ['b'], []] := by decide

example : formatMessage (String.toList ("x```js\nq```y"))
    = [Segment.text ['x'], Segment.code ['j', 's'] ['q'] false, Segment.text ['y']] := by
  decide

example : formatMessage (String.toList ("no fences here")) =
    [Segment.text (String.toList ("no fences here"))] := by decide

example : formatMessage (String.toList ("open ```js\nnever closed")) =
    [Segment.text (String.toList ("open ```js\nnever closed"))] := by decide

example : (sendRound connectedState ("hi") (FetchSendResult.rejected true)).messages
    = [⟨Role.user, "hi"⟩, ⟨Role.assistant, ERROR_GENERAL⟩] := by decide

example : (submit connectedState ("   ")).2 = none := by decide

example : pollHealth connectedState (ProbeOutcome.status ("ok")) = connectedState := by decide

theorem startsTriple_of_head_ne {c : Char} (l : List Char) (h : (c == btick) = false) :
    startsTriple (c :: l) = false := by
  cases l with
  | nil => rfl
  | cons b l2 =>
    cases l2 with
    | nil => rfl
    | cons e l3 => simp [startsTriple, h]

theorem hasTriple_cons (c : Char) (l : List Char) :
    hasTriple (c :: l) = (startsTriple (c :: l) || hasTriple l) := rfl

theorem hasTriple_tail {c : Char} {l : List Char} (h : hasTriple (c :: l) = false) :
    hasTriple l = false := by
  rw [hasTriple_cons] at h
  exact (Bool.or_eq_false_iff.mp h).2

theorem startsTriple_head_false {c : Char} {l : List Char} (h : hasTriple (c :: l) = false) :
    startsTriple (c :: l) = false := by
  rw [hasTriple_cons] at h
  exact (Bool.or_eq_false_iff.mp h).1

theorem endsBt_cons {c : Char} {l : List Char} (h : l ≠ []) :
    endsBt (c :: l) = endsBt l := by
  cases l with
  | nil => exact absurd rfl h
  | cons d l2 => rfl

theorem splitAtTriple_none {l : List Char} (h : hasTriple l = false) :
    splitAtTriple l = none := by
  induction l with
  | nil => rfl
  | cons c l ih =>
    simp [splitAtTriple, startsTriple_head_false h, ih (hasTriple_tail h)]

theorem splitAtTriple_append {b : List Char} (r : List Char)
    (h1 : hasTriple b = false) (h2 : endsBt b = false) :
    splitAtTriple (b ++ btick :: btick :: btick :: r) = some (b, r) := by
  induction b with
  | nil => simp [splitAtTriple, startsTriple]
  | cons c b ih =>
    have htailtrip : hasTriple b = false := hasTriple_tail h1
    have hstart : startsTriple (c :: (b ++ btick :: btick :: btick :: r)) = false := by
      cases b with
      | nil =>
        have hc : (c == btick) = false := by simpa [endsBt] using h2
        exact startsTriple_of_head_ne _ hc
      | cons d b2 =>
        cases b2 with
        | nil =>
          have hd : (d == btick) = false := by simpa [endsBt] using h2
          simp [startsTriple, hd]
        | cons e b3 =>
          have := startsTriple_head_false h1
          simpa [startsTriple] using this
    have h2' : endsBt b = false := by
      cases b with
      | nil => rfl
      | cons d b2 => rw [endsBt_cons (by simp)] at h2; exact h2
    simp [splitAtTriple, hstart, ih htailtrip h2']

theorem wordChar_ne_btick {c : Char} (h : isWordChar c = true) : (c == btick) = false := by
  by_cases hc : c = btick
  · subst hc; exact absurd h (by decide)
  · simp [hc]

theorem startsTriple_second {a b : Char} (l : List Char) (h : (b == btick) = false) :
    startsTriple (a :: b :: l) = false := by
  cases l with
  | nil => rfl
  | cons c l2 => simp [startsTriple, h]

theorem startsTriple_third {a b c : Char} (l : List Char) (h : (c == btick) = false) :
    startsTriple (a :: b :: c :: l) = false := by
  simp [startsTriple, h]

theorem takeWhile_word_append {lang : List Char} (z : List Char)
    (h : lang.all isWordChar = true) :
    (lang ++ '\n' :: z).takeWhile isWordChar = lang ∧
    (lang ++ '\n' :: z).dropWhile isWordChar = '\n' :: z := by
  induction lang with
  | nil =>
    have hnl : isWordChar '\n' = false := by decide
    constructor
    · simp [List.takeWhile_cons, hnl]
    · simp [List.dropWhile_cons, hnl]
  | cons c cs ih =>
    rw [List.all_cons, Bool.and_eq_true] at h
    obtain ⟨ih1, ih2⟩ := ih h.2
    constructor
    · simp [List.takeWhile_cons, h.1, ih1]
    · simp [List.dropWhile_cons, h.1, ih2]

theorem hasTriple_word_append {lang : List Char} (s : List Char)
    (hl : lang.all isWordChar = true) (hs : hasTriple s = false) :
    hasTriple (lang ++ '\n' :: s) = false := by
  induction lang with
  | nil =>
    rw [List.nil_append, hasTriple_cons]
    have h1 : startsTriple ('\n' :: s) = false :=
      startsTriple_of_head_ne (c := '\n') s (by decide)
    simp [h1, hs]
  | cons c cs ih =>
    rw [List.all_cons, Bool.and_eq_true] at hl
    rw [List.cons_append, hasTriple_cons]
    have h1 : startsTriple (c :: (cs ++ '\n' :: s)) = false :=
      startsTriple_of_head_ne (cs ++ '\n' :: s) (wordChar_ne_btick hl.1)
    simp [h1, ih hl.2]

theorem hasTriple_append_triple (t w : List Char) :
    hasTriple (t ++ btick :: btick :: btick :: w) = true := by
  induction t with
  | nil =>
    rw [List.nil_append, hasTriple_cons]
    simp [startsTriple]
  | cons c t ih =>
    rw [List.cons_append, hasTriple_cons, ih]
    simp

theorem matchAt_none {l : List Char} (h : startsTriple l = false) : matchAt l = none := by
  simp [matchAt, h]

theorem matchAt_render {lang body : List Char} (r : List Char)
    (hl : lang.all isWordChar = true) (hb : hasTriple body = false) (he : endsBt body = false) :
    matchAt (btick :: btick :: btick :: (lang ++ '\n' :: (body ++ btick :: btick :: btick :: r)))
      = some (lang, body, r) := by
  obtain ⟨ht, hd⟩ := takeWhile_word_append (body ++ btick :: btick :: btick :: r) hl
  simp [matchAt, startsTriple, ht, hd, splitAtTriple_append r hb he]

theorem matchAt_shift {u : List Char} (w : List Char)
    (hne : u ≠ []) (hu : hasTriple u = false) :
    matchAt (u ++ btick :: btick :: btick :: w) = none := by
  rcases u with _ | ⟨a, _ | ⟨b, _ | ⟨c, u3⟩⟩⟩
  · exact absurd rfl hne
  · by_cases ha : (a == btick) = true
    · have : a = btick := by simpa using ha
      subst this
      have h1 : isWordChar btick = false := by decide
      simp [matchAt, startsTriple, List.dropWhile_cons, h1]
      exact fun hc => absurd hc (by decide)
    · have hst := startsTriple_of_head_ne (btick :: btick :: btick :: w)
        (by simpa using ha)
      exact matchAt_none (by simpa using hst)
  · by_cases hb : (b == btick) = true
    · by_cases ha : (a == btick) = true
      · have hae : a = btick := by simpa using ha
        have hbe : b = btick := by simpa using hb
        subst hae; subst hbe
        have h1 : isWordChar btick = false := by decide
        simp [matchAt, startsTriple, List.dropWhile_cons, h1]
        exact fun hc => absurd hc (by decide)
      · exact matchAt_none (startsTriple_of_head_ne _ (by simpa using ha))
    · exact matchAt_none (startsTriple_second _ (by simpa using hb))
  · have hst : startsTriple (a :: b :: c :: u3) = false := startsTriple_head_false hu
    have heq : startsTriple (a :: b :: c :: (u3 ++ btick :: btick :: btick :: w))
        = startsTriple (a :: b :: c :: u3) := rfl
    exact matchAt_none (by simpa [List.cons_append] using heq.trans hst)

theorem findFence_none_of_hasTriple_false {l : List Char} (h : hasTriple l = false) :
    findFence l = none := by
  induction l with
  | nil => rfl
  | cons c l ih =>
    simp [findFence, matchAt_none (startsTriple_head_false h), ih (hasTriple_tail h)]

theorem renderFence_append (f : Fence) (r : List Char) :
    renderFence f ++ r
      = btick :: btick :: btick :: (f.lang ++ '\n' :: (f.body ++ btick :: btick :: btick :: r)) := by
  simp [renderFence, List.cons_append, List.append_assoc]

theorem wfFence_parts {f : Fence} (hf : wfFence f = true) :
    f.lang.all isWordChar = true ∧ hasTriple f.body = false ∧ endsBt f.body = false := by
  rw [wfFence, Bool.and_eq_true, Bool.and_eq_true] at hf
  exact ⟨hf.1.1, by simpa using hf.1.2, by simpa using hf.2⟩

theorem findFence_step (f : Fence) (r : List Char) (hf : wfFence f = true) :
    ∀ t : List Char, hasTriple t = false →
      findFence (t ++ (renderFence f ++ r)) = some ⟨t, f.lang, f.body, r⟩ := by
  obtain ⟨hl, hb, he⟩ := wfFence_parts hf
  intro t
  induction t with
  | nil =>
    intro _
    rw [List.nil_append, renderFence_append]
    simp [findFence, matchAt_render r hl hb he]
  | cons c t ih =>
    intro ht
    have key : matchAt (c :: (t ++ (renderFence f ++ r))) = none := by
      have hs := matchAt_shift (u := c :: t)
        (w := f.lang ++ '\n' :: (f.body ++ btick :: btick :: btick :: r)) (by simp) ht
      rw [renderFence_append]
      simpa [List.cons_append, List.append_assoc] using hs
    simp [findFence, key, ih (hasTriple_tail ht)]

theorem findFence_dangling (lang s : List Char)
    (hl : lang.all isWordChar = true) (hs : hasTriple s = false) :
    ∀ t : List Char, hasTriple t = false →
      findFence (t ++ btick :: btick :: btick :: (lang ++ '\n' :: s)) = none := by
  intro t
  induction t with
  | nil =>
    intro _
    have m1 : matchAt (btick :: btick :: btick :: (lang ++ '\n' :: s)) = none := by
      obtain ⟨ht, hd⟩ := takeWhile_word_append s hl
      simp [matchAt, startsTriple, ht, hd, splitAtTriple_none hs]
    have m2 : matchAt (btick :: btick :: (lang ++ '\n' :: s)) = none := by
      apply matchAt_none
      cases lang with
      | nil => exact startsTriple_third _ (by decide)
      | cons w ws =>
        rw [List.all_cons, Bool.and_eq_true] at hl
        exact startsTriple_third _ (wordChar_ne_btick hl.1)
    have m3 : matchAt (btick :: (lang ++ '\n' :: s)) = none := by
      apply matchAt_none
      cases lang with
      | nil => exact startsTriple_second _ (by decide)
      | cons w ws =>
        rw [List.all_cons, Bool.and_eq_true] at hl
        exact startsTriple_second _ (wordChar_ne_btick hl.1)
    have f4 : findFence (lang ++ '\n' :: s) = none :=
      findFence_none_of_hasTriple_false (hasTriple_word_append s hl hs)
    rw [List.nil_append]
    simp [findFence, m1, m2, m3, f4]
  | cons c t ih =>
    intro ht
    have key : matchAt (c :: (t ++ btick :: btick :: btick :: (lang ++ '\n' :: s))) = none := by
      have hs2 := matchAt_shift (u := c :: t) (w := lang ++ '\n' :: s) (by simp) ht
      simpa [List.cons_append] using hs2
    simp [findFence, key, ih (hasTriple_tail ht)]

theorem startsTriple_decomp {l : List Char} (h : startsTriple l = true) :
    l = btick :: btick :: btick :: l.drop 3 := by
  rcases l with _ | ⟨a, _ | ⟨b, _ | ⟨c, r⟩⟩⟩
  · simp [startsTriple] at h
  · simp [startsTriple] at h
  · simp [startsTriple] at h
  · simp only [startsTriple, Bool.and_eq_true, beq_iff_eq] at h
    obtain ⟨⟨ha, hb⟩, hc⟩ := h
    subst ha; subst hb; subst hc
    rfl

theorem splitAtTriple_decomp : ∀ {l b r : List Char},
    splitAtTriple l = some (b, r) → l = b ++ btick :: btick :: btick :: r := by
  intro l
  induction l with
  | nil => intro b r h; simp [splitAtTriple] at h
  | cons c l ih =>
    intro b r h
    rw [splitAtTriple] at h
    by_cases hst : startsTriple (c :: l) = true
    · rw [if_pos hst] at h
      simp only [Option.some.injEq, Prod.mk.injEq] at h
      obtain ⟨hb, hr⟩ := h
      subst hb; subst hr
      rw [List.nil_append]
      exact startsTriple_decomp hst
    · rw [if_neg hst] at h
      rcases hsp : splitAtTriple l with _ | ⟨b2, r2⟩
      · rw [hsp] at h; simp at h
      · rw [hsp] at h
        simp at h
        obtain ⟨hb, hr⟩ := h
        subst hb; subst hr
        rw [List.cons_append]
        exact congrArg (c :: ·) (ih hsp)

theorem matchAt_decomp {l lg bd r : List Char} (h : matchAt l = some (lg, bd, r)) :
    l = btick :: btick :: btick ::
      (lg ++ '\n' :: (bd ++ btick :: btick :: btick :: r)) := by
  rw [matchAt] at h
  by_cases hst : startsTriple l = true
  · rw [if_pos hst] at h
    simp only at h
    by_cases hh : ((l.drop 3).dropWhile isWordChar).head? = some '\n'
    · rw [if_pos hh] at h
      rcases hsp : splitAtTriple (((l.drop 3).dropWhile isWordChar).tail) with _ | ⟨bd2, r2⟩
      · rw [hsp] at h; simp at h
      · rw [hsp] at h
        simp at h
        obtain ⟨hlg, hbd, hr⟩ := h
        subst hlg; subst hbd; subst hr
        have hdrop : (l.drop 3).dropWhile isWordChar
            = '\n' :: ((l.drop 3).dropWhile isWordChar).tail := by
          rcases hd : (l.drop 3).dropWhile isWordChar with _ | ⟨x, xs⟩
          · rw [hd] at hh; simp at hh
          · rw [hd] at hh
            simp only [List.head?, Option.some.injEq] at hh
            subst hh; rfl
        have hsplit := splitAtTriple_decomp hsp
        have htd : (l.drop 3).takeWhile isWordChar ++ (l.drop 3).dropWhile isWordChar
            = l.drop 3 := List.takeWhile_append_dropWhile isWordChar (l.drop 3)
        calc l = btick :: btick :: btick :: l.drop 3 := startsTriple_decomp hst
          _ = btick :: btick :: btick ::
              ((l.drop 3).takeWhile isWordChar ++ (l.drop 3).dropWhile isWordChar) := by
                rw [htd]
          _ = btick :: btick :: btick ::
              ((l.drop 3).takeWhile isWordChar
                ++ '\n' :: ((l.drop 3).dropWhile isWordChar).tail) := by rw [← hdrop]
          _ = btick :: btick :: btick ::
              ((l.drop 3).takeWhile isWordChar
                ++ '\n' :: (bd2 ++ btick :: btick :: btick :: r2)) := by rw [← hsplit]
    · rw [if_neg hh] at h; exact absurd h (by simp)
  · rw [if_neg hst] at h; exact absurd h (by simp)

theorem findFence_decomp : ∀ {l : List Char} {m : FenceMatch}, findFence l = some m →
    l = m.pre ++ btick :: btick :: btick ::
      (m.lang ++ '\n' :: (m.body ++ btick :: btick :: btick :: m.rest)) := by
  intro l
  induction l with
  | nil => intro m h; simp [findFence] at h
  | cons c l ih =>
    intro m h
    rw [findFence] at h
    rcases hma : matchAt (c :: l) with _ | ⟨lg, bd, r⟩
    · rw [hma] at h
      simp only at h
      rcases hff : findFence l with _ | m2
      · rw [hff] at h; simp at h
      · rw [hff] at h
        simp at h
        subst h
        simp only [List.cons_append]
        exact congrArg (c :: ·) (ih hff)
    · rw [hma] at h
      simp only [Option.some.injEq] at h
      subst h
      simp only [List.nil_append]
      exact matchAt_decomp hma

theorem findFence_rest_lt {l : List Char} {m : FenceMatch} (h : findFence l = some m) :
    m.rest.length < l.length := by
  have hd := findFence_decomp h
  rw [hd]
  simp [List.length_append]
  omega

theorem parseSegsF_congr : ∀ (fuel fuel2 : Nat) (l : List Char),
    l.length < fuel → l.length < fuel2 → parseSegsF fuel l = parseSegsF fuel2 l := by
  intro fuel
  induction fuel with
  | zero => intro fuel2 l h1 _; exact absurd h1 (Nat.not_lt_zero _)
  | succ f ih =>
    intro fuel2 l h1 h2
    cases fuel2 with
    | zero => exact absurd h2 (Nat.not_lt_zero _)
    | succ f2 =>
      rw [parseSegsF, parseSegsF]
      rcases hff : findFence l with _ | m
      · rfl
      · have hlt := findFence_rest_lt hff
        show (if m.pre.isEmpty then [] else [Segment.text m.pre]) ++
            codeSegOf m.lang m.body :: parseSegsF f m.rest
          = (if m.pre.isEmpty then [] else [Segment.text m.pre]) ++
            codeSegOf m.lang m.body :: parseSegsF f2 m.rest
        rw [ih f2 m.rest (by omega) (by omega)]

theorem parseSegments_eq_none {l : List Char} (h : findFence l = none) :
    parseSegments l = if l.isEmpty then [] else [Segment.text l] := by
  rw [parseSegments, parseSegsF, h]

theorem parseSegments_eq_some {l : List Char} {m : FenceMatch} (h : findFence l = some m) :
    parseSegments l =
      (if m.pre.isEmpty then [] else [Segment.text m.pre]) ++
        codeSegOf m.lang m.body :: parseSegments m.rest := by
  rw [parseSegments, parseSegsF, h]
  have hlt := findFence_rest_lt h
  show (if m.pre.isEmpty then [] else [Segment.text m.pre]) ++
      codeSegOf m.lang m.body :: parseSegsF l.length m.rest
    = (if m.pre.isEmpty then [] else [Segment.text m.pre]) ++
      codeSegOf m.lang m.body :: parseSegments m.rest
  rw [parseSegments]
  rw [parseSegsF_congr l.length (m.rest.length + 1) m.rest (by omega) (by omega)]

theorem hasTriple_append_right (x : List Char) {w : List Char} (hw : hasTriple w = true) :
    hasTriple (x ++ w) = true := by
  induction x with
  | nil => simpa
  | cons c x ih =>
    rw [List.cons_append, hasTriple_cons, ih]
    simp

theorem render_eq_append : ∀ (ps : List (List Char × Fence)) (tl : List Char),
    render ps tl = render ps [] ++ tl := by
  intro ps
  induction ps with
  | nil => intro tl; simp [render]
  | cons p ps ih =>
    intro tl
    obtain ⟨t, f⟩ := p
    rw [render, render, ih tl]
    simp [List.append_assoc]

theorem parseSegments_render_gen :
    ∀ (ps : List (List Char × Fence)) (tl : List Char),
      ps.all (fun p => !hasTriple p.1 && wfFence p.2) = true →
      findFence tl = none →
      parseSegments (render ps tl)
        = chunkSegments ps ++ (if tl.isEmpty then [] else [Segment.text tl]) := by
  intro ps
  induction ps with
  | nil =>
    intro tl hps htl
    rw [render, chunkSegments, List.nil_append]
    exact parseSegments_eq_none htl
  | cons p ps ih =>
    intro tl hps htl
    obtain ⟨t, f⟩ := p
    rw [List.all_cons, Bool.and_eq_true] at hps
    obtain ⟨hp, hps2⟩ := hps
    rw [Bool.and_eq_true] at hp
    have ht : hasTriple t = false := by simpa using hp.1
    have hf : wfFence f = true := hp.2
    have hassoc : render ((t, f) :: ps) tl = t ++ (renderFence f ++ render ps tl) := by
      rw [render, List.append_assoc]
    rw [hassoc]
    rw [parseSegments_eq_some (findFence_step f (render ps tl) hf t ht)]
    rw [ih tl hps2 htl]
    rw [chunkSegments]
    simp [List.append_assoc, List.cons_append]

theorem formatMessage_eq_parse (content : List Char) :
    formatMessage content = parseSegments content := by
  by_cases h : content.isEmpty = true
  · have hnil : content = [] := by simpa using h
    subst hnil
    rfl
  · rw [formatMessage, if_neg (by simp_all)]
    by_cases ht : hasTriple content = true
    · rw [if_pos ht]
    · rw [if_neg ht]
      have hn := parseSegments_eq_none
        (findFence_none_of_hasTriple_false (by simpa using ht))
      rw [hn, if_neg (by simp_all)]

theorem codeBodies_append (xs ys : List Segment) :
    codeBodies (xs ++ ys) = codeBodies xs ++ codeBodies ys := by
  induction xs with
  | nil => rfl
  | cons x xs ih => cases x <;> simp [codeBodies, ih]

theorem textConcat_append (xs ys : List Segment) :
    textConcat (xs ++ ys) = textConcat xs ++ textConcat ys := by
  induction xs with
  | nil => rfl
  | cons x xs ih => cases x <;> simp [textConcat, ih]

theorem codeBodies_chunk : ∀ ps : List (List Char × Fence),
    codeBodies (chunkSegments ps) = ps.map (fun p => p.2.body) := by
  intro ps
  induction ps with
  | nil => rfl
  | cons p ps ih =>
    obtain ⟨t, f⟩ := p
    rw [chunkSegments, codeBodies_append]
    by_cases h : t.isEmpty = true
    · simp [h, codeBodies, codeSegOf, ih]
    · simp [h, codeBodies, codeSegOf, ih]

theorem textConcat_chunk : ∀ ps : List (List Char × Fence),
    textConcat (chunkSegments ps) = textsOf ps := by
  intro ps
  induction ps with
  | nil => rfl
  | cons p ps ih =>
    obtain ⟨t, f⟩ := p
    rw [chunkSegments, textConcat_append, textsOf]
    by_cases h : t.isEmpty = true
    · have : t = [] := by simpa using h
      subst this
      simp [textConcat, ih]
    · simp [h, textConcat, ih]

theorem parseSegsF_code_mem : ∀ (fuel : Nat) (l lang body : List Char) (c : Bool),
    Segment.code lang body c ∈ parseSegsF fuel l →
    c = decide (10 < (splitNl body).length) := by
  intro fuel
  induction fuel with
  | zero => intro l lang body c h; simp [parseSegsF] at h
  | succ f ih =>
    intro l lang body c h
    rw [parseSegsF] at h
    rcases hff : findFence l with _ | m
    · rw [hff] at h
      by_cases he : l.isEmpty = true
      · simp [he] at h
      · simp [he] at h
    · rw [hff] at h
      simp only [List.mem_append, List.mem_cons] at h
      rcases h with h | h | h
      · by_cases he : m.pre.isEmpty = true
        · simp [he] at h
        · simp [he] at h
      · rw [codeSegOf] at h
        rw [Segment.code.injEq] at h
        obtain ⟨_, hb, hc⟩ := h
        subst hb
        exact hc
      · exact ih m.rest lang body c h

/-- Claim C2: for every text assembled from triple-backtick-free gaps
and well-formed fenced blocks, the parse yields exactly the blocks'
bodies as Code segments, in source order and verbatim (so their line
splits are the original inner lines), and the Text segments' raw
content concatenates to the original text with the fenced regions
removed. -/
theorem c2_parse_roundtrip (ps : List (List Char × Fence)) (tl : List Char)
    (h : wfInput ps tl = true) :
    codeBodies (formatMessage (render ps tl)) = ps.map (fun p => p.2.body) ∧
    (codeBodies (formatMessage (render ps tl))).map splitNl
      = ps.map (fun p => splitNl p.2.body) ∧
    textConcat (formatMessage (render ps tl)) = textsOf ps ++ tl := by
  rw [wfInput, Bool.and_eq_true] at h
  have hps := h.1
  have htl : hasTriple tl = false := by simpa using h.2
  rw [formatMessage_eq_parse]
  rw [parseSegments_render_gen ps tl hps (findFence_none_of_hasTriple_false htl)]
  have h1 : codeBodies (chunkSegments ps ++ if tl.isEmpty then [] else [Segment.text tl])
      = ps.map (fun p => p.2.body) := by
    rw [codeBodies_append, codeBodies_chunk]
    by_cases he : tl.isEmpty = true
    · simp [he, codeBodies]
    · simp [he, codeBodies]
  refine ⟨h1, ?_, ?_⟩
  · rw [h1, List.map_map]
    rfl
  · rw [textConcat_append, textConcat_chunk]
    by_cases he : tl.isEmpty = true
    · have : tl = [] := by simpa using he
      subst this
      simp [textConcat]
    · simp [he, textConcat]

/-- Witness for C2 at a concrete two-fence input. -/
theorem c2_parse_roundtrip_witness :
    wfInput c2ps (String.toList ("tail")) = true ∧
    codeBodies (formatMessage (render c2ps (String.toList ("tail"))))
      = [String.toList ("a\nb\n"), String.toList ("x")] ∧
    textConcat (formatMessage (render c2ps (String.toList ("tail"))))
      = String.toList ("intro\nmidtail") := by
  refine ⟨by decide, ?_, ?_⟩
  · rw [(c2_parse_roundtrip c2ps (String.toList ("tail")) (by decide)).1]
    decide
  · rw [(c2_parse_roundtrip c2ps (String.toList ("tail")) (by decide)).2.2]
    decide

/-- Claim C6 counterexample: on the scenario input the single Code
segment's body is the three split lines a, b and a trailing empty line,
because the newline before the closing fence is captured into the body;
the claimed value of exactly the two lines a and b is therefore false
on the code. -/
theorem c6_scenario_counterexample :
    formatMessage (String.toList ("```js\na\nb\n```"))
      = [Segment.code (String.toList ("js")) (String.toList ("a\nb\n")) false] ∧
    splitNl (String.toList ("a\nb\n")) ≠ [String.toList ("a"), String.toList ("b")] := by
  constructor
  · decide
  · decide

/-- Claim C6 amended: the scenario input yields exactly one Code
segment with language js, body a, newline, b, newline, whose split
lines are a, b and one trailing empty line, and which is not collapsed
by default. -/
theorem c6_scenario_amended :
    formatMessage (String.toList ("```js\na\nb\n```"))
      = [Segment.code (String.toList ("js")) (String.toList ("a\nb\n")) false] ∧
    splitNl (String.toList ("a\nb\n"))
      = [String.toList ("a"), String.toList ("b"), []] := by
  constructor
  · decide
  · decide

/-- Claim C7: every Code segment the parse emits is collapsed by
default exactly when its split lines number strictly more than 10; a
block whose body splits into exactly 10 lines is not collapsed, one
with 11 lines is. -/
theorem c7_collapse_threshold :
    (∀ (t lang body : List Char) (c : Bool),
      Segment.code lang body c ∈ formatMessage t →
      (c = true ↔ 10 < (splitNl body).length)) ∧
    formatMessage (String.toList ("```\n1\n2\n3\n4\n5\n6\n7\n8\n9\n0```"))
      = [Segment.code defaultLang (String.toList ("1\n2\n3\n4\n5\n6\n7\n8\n9\n0")) false] ∧
    formatMessage (String.toList ("```\n1\n2\n3\n4\n5\n6\n7\n8\n9\n0\n```"))
      = [Segment.code defaultLang (String.toList ("1\n2\n3\n4\n5\n6\n7\n8\n9\n0\n")) true] := by
  refine ⟨?_, by decide, by decide⟩
  intro t lang body c h
  rw [formatMessage_eq_parse, parseSegments] at h
  have := parseSegsF_code_mem (t.length + 1) t lang body c h
  subst this
  exact decide_eq_true_iff

/-- Witness for the universally quantified part of C7. -/
theorem c7_collapse_threshold_witness :
    Segment.code (String.toList ("js")) (String.toList ("a\nb\n")) false
        ∈ formatMessage (String.toList ("```js\na\nb\n```")) ∧
    (false = true ↔ 10 < (splitNl (String.toList ("a\nb\n"))).length) :=
  ⟨by decide,
    c7_collapse_threshold.1 (String.toList ("```js\na\nb\n```")) (String.toList ("js"))
      (String.toList ("a\nb\n")) false (by decide)⟩

/-- Claim C9: an input whose fence opener has no matching closer parses
without error: after any complete well-formed fences, the dangling
opener and everything following it is emitted inside the final Text
segment, never as a Code segment. -/
theorem c9_unterminated_fence (ps : List (List Char × Fence)) (t lang s : List Char)
    (hps : ps.all (fun p => !hasTriple p.1 && wfFence p.2) = true)
    (ht : hasTriple t = false) (hl : lang.all isWordChar = true)
    (hs : hasTriple s = false) :
    formatMessage (render ps (t ++ btick :: btick :: btick :: (lang ++ '\n' :: s)))
      = chunkSegments ps
        ++ [Segment.text (t ++ btick :: btick :: btick :: (lang ++ '\n' :: s))] := by
  rw [formatMessage_eq_parse]
  have htl : findFence (t ++ btick :: btick :: btick :: (lang ++ '\n' :: s)) = none :=
    findFence_dangling lang s hl hs t ht
  rw [parseSegments_render_gen ps _ hps htl]
  have hne : (t ++ btick :: btick :: btick :: (lang ++ '\n' :: s)).isEmpty = false := by
    cases t <;> rfl
  rw [if_neg (by simp [hne])]

/-- Witness for C9 at a concrete input with one complete fence and one
dangling opener. -/
theorem c9_unterminated_fence_witness :
    hasTriple (String.toList ("see ")) = false ∧
    formatMessage (render c9ps (String.toList ("see ")
        ++ btick :: btick :: btick :: (String.toList ("py") ++ '\n' :: String.toList ("left open"))))
      = chunkSegments c9ps
        ++ [Segment.text (String.toList ("see ")
            ++ btick :: btick :: btick :: (String.toList ("py") ++ '\n' :: String.toList ("left open")))] :=
  ⟨by decide,
    c9_unterminated_fence c9ps (String.toList ("see ")) (String.toList ("py"))
      (String.toList ("left open")) (by decide) (by decide) (by decide) (by decide)⟩

theorem connectivity_connected_iff (s : AppState) :
    connectivity s = Connectivity.connected ↔
      (s.isConnected = true ∧ s.isReconnecting = false) := by
  obtain ⟨ms, c0, w0, r0, e0, h0⟩ := s
  cases r0 <;> cases c0 <;> simp [connectivity]

/-- Claim C1: a submission while connectivity is not Connected, while
the input is blank, or while a request is pending leaves the log
unchanged and does not invoke the external send; otherwise it appends
exactly one User message, raises the pending flag and invokes the send
with the input. -/
theorem c1_submit_gating (s : AppState) (input : String) (hcl : s.hasClient = true) :
    ((connectivity s ≠ Connectivity.connected ∨ isBlank input = true ∨
        s.isWaitingForResponse = true) →
      (submit s input).1.messages = s.messages ∧ (submit s input).2 = none) ∧
    ((connectivity s = Connectivity.connected ∧ isBlank input = false ∧
        s.isWaitingForResponse = false) →
      (submit s input).1.messages = s.messages ++ [⟨Role.user, input⟩] ∧
      (submit s input).1.isWaitingForResponse = true ∧
      (submit s input).2 = some input) := by
  constructor
  · intro h
    obtain ⟨ms, c0, w0, r0, e0, cl0⟩ := s
    cases c0 with
    | false => simp [submit, inputDisabled]
    | true =>
      cases w0 with
      | true => simp [submit, inputDisabled]
      | false =>
        cases r0 with
        | true => simp [submit, inputDisabled]
        | false =>
          have hb : isBlank input = true := by
            rcases h with h | h | h
            · exact absurd rfl h
            · exact h
            · exact absurd h (by simp)
          simp [submit, inputDisabled, handleSubmit, hb]
  · intro h
    obtain ⟨h1, h2, h3⟩ := h
    obtain ⟨hc, hr⟩ := (connectivity_connected_iff s).mp h1
    simp [submit, inputDisabled, hc, h3, hr, handleSubmit, h2, sendMessageEntry, hcl]

/-- Witness for C1: a connected idle state accepts the submission. -/
theorem c1_submit_gating_witness :
    connectedState.hasClient = true ∧
    (connectivity connectedState = Connectivity.connected ∧ isBlank ("hi") = false ∧
      connectedState.isWaitingForResponse = false) ∧
    (submit connectedState ("hi")).1.messages = [⟨Role.user, "hi"⟩] ∧
    (submit connectedState ("hi")).2 = some ("hi") := by
  refine ⟨rfl, ⟨by decide, by decide, rfl⟩, ?_, ?_⟩
  · have h := (c1_submit_gating connectedState ("hi") rfl).2 ⟨by decide, by decide, rfl⟩
    simpa using h.1
  · exact ((c1_submit_gating connectedState ("hi") rfl).2 ⟨by decide, by decide, rfl⟩).2.2

/-- Claim C5: a successful send with truthy reply content appends
exactly one User message and then exactly one Assistant message with
the reply content, in that order, and leaves the pending flag false. -/
theorem c5_success_appends (s : AppState) (input c : String) (sid : Option String) (st : Nat)
    (hcl : s.hasClient = true) (hconn : connectivity s = Connectivity.connected)
    (hw : s.isWaitingForResponse = false) (hne : isBlank input = false) (hc : c ≠ "") :
    (sendRound s input (FetchSendResult.resolved true st ⟨some c, sid⟩)).messages
      = s.messages ++ [⟨Role.user, input⟩, ⟨Role.assistant, c⟩] ∧
    (sendRound s input (FetchSendResult.resolved true st ⟨some c, sid⟩)).isWaitingForResponse
      = false := by
  obtain ⟨hcon, hrec⟩ := (connectivity_connected_iff s).mp hconn
  have htruthy : contentTruthy (some c) = true := by simp [contentTruthy, hc]
  constructor <;>
    simp [sendRound, submit, inputDisabled, hcon, hw, hrec, handleSubmit, hne,
      sendMessageEntry, hcl, apiSendMessage, resolveSend, htruthy]

/-- Witness for C5 at a concrete connected state and reply. -/
theorem c5_success_appends_witness :
    isBlank ("hi") = false ∧ ("yo" : String) ≠ "" ∧
    (sendRound connectedState ("hi")
        (FetchSendResult.resolved true 200 ⟨some ("yo"), none⟩)).messages
      = [⟨Role.user, "hi"⟩, ⟨Role.assistant, "yo"⟩] := by
  refine ⟨by decide, by decide, ?_⟩
  have h := (c5_success_appends connectedState ("hi") ("yo") none 200 rfl (by decide) rfl
    (by decide) (by decide)).1
  simpa using h

/-- Claim C3 counterexample: a timed-out send appends the Assistant
error message with the GENERAL wording, not the TIMEOUT wording: the
catch in App.sendMessage maps every thrown error, timeouts included,
to ERROR_MESSAGES.GENERAL, and nothing ever selects the TIMEOUT
string. -/
theorem c3_timeout_counterexample :
    (sendRound connectedState ("hi") (FetchSendResult.rejected true)).messages
      = [⟨Role.user, "hi"⟩, ⟨Role.assistant, ERROR_GENERAL⟩] ∧
    ERROR_GENERAL ≠ ERROR_TIMEOUT := by
  constructor
  · decide
  · decide

/-- Claim C3 amended: a send whose fetch rejects with the timeout
bound by the fixed 60000 millisecond limit appends exactly one
Assistant error message carrying the General wording, clears the
pending flag and records the error status. -/
theorem c3_timeout_resolution (s : AppState) (input : String)
    (hcl : s.hasClient = true) (hconn : connectivity s = Connectivity.connected)
    (hw : s.isWaitingForResponse = false) (hne : isBlank input = false) :
    (sendRound s input (FetchSendResult.rejected true)).messages
      = s.messages ++ [⟨Role.user, input⟩, ⟨Role.assistant, ERROR_GENERAL⟩] ∧
    (sendRound s input (FetchSendResult.rejected true)).isWaitingForResponse = false ∧
    (sendRound s input (FetchSendResult.rejected true)).connectionError
      = some ConnStatus.errorStatus ∧
    clientTimeoutMs = 60000 := by
  obtain ⟨hcon, hrec⟩ := (connectivity_connected_iff s).mp hconn
  refine ⟨?_, ?_, ?_, rfl⟩ <;>
    simp [sendRound, submit, inputDisabled, hcon, hw, hrec, handleSubmit, hne,
      sendMessageEntry, hcl, apiSendMessage, resolveSend]

/-- Witness for the amended C3 at a concrete connected state. -/
theorem c3_timeout_resolution_witness :
    isBlank ("hi") = false ∧
    (sendRound connectedState ("hi") (FetchSendResult.rejected true)).isWaitingForResponse
      = false ∧
    (sendRound connectedState ("hi") (FetchSendResult.rejected true)).connectionError
      = some ConnStatus.errorStatus := by
  refine ⟨by decide, ?_, ?_⟩
  · exact (c3_timeout_resolution connectedState ("hi") rfl (by decide) rfl (by decide)).2.1
  · exact (c3_timeout_resolution connectedState ("hi") rfl (by decide) rfl (by decide)).2.2.1

/-- Claim C4 counterexample: with the identical error string present
as an earlier, non-trailing assistant entry and a different trailing
entry, the view suppresses the injected error: the deduplication
consults the whole displayed list through some, not merely the
trailing slot, so the claim that it compares only against the trailing
entry is false on the code. -/
theorem c4_dedup_counterexample :
    displayMessages [⟨Role.assistant, ERROR_GENERAL⟩, ⟨Role.user, "hi"⟩] false false
        (errorMessageFor (some ConnStatus.errorStatus))
      = [⟨Role.assistant, ERROR_GENERAL⟩, ⟨Role.user, "hi"⟩] ∧
    (⟨Role.user, "hi"⟩ : ChatMsg).role ≠ Role.assistant := by
  constructor
  · decide
  · decide

/-- Claim C4 amended: each failed send appends exactly one Assistant
error message, always with the General wording; the view-level error
injection adds at most one entry and is suppressed exactly when some
assistant message anywhere in the whole displayed list, not only the
trailing slot, already carries the same content. -/
theorem c4_error_injection :
    (∀ (s : AppState) (k : SendErr),
      (resolveSend s (Except.error k)).messages
        = s.messages ++ [⟨Role.assistant, ERROR_GENERAL⟩]) ∧
    (∀ (s : AppState) (data : ChatData), contentTruthy data.content = false →
      (resolveSend s (Except.ok data)).messages
        = s.messages ++ [⟨Role.assistant, ERROR_GENERAL⟩]) ∧
    (∀ (msgs : List ChatMsg) (w r : Bool) (e : String),
      (displayMessages msgs w r (some e) = displayBase msgs w r ∨
        displayMessages msgs w r (some e)
          = displayBase msgs w r ++ [⟨Role.assistant, e⟩]) ∧
      (displayMessages msgs w r (some e) = displayBase msgs w r ↔
        ∃ m ∈ displayBase msgs w r, m.role = Role.assistant ∧ m.content = e)) := by
  refine ⟨?_, ?_, ?_⟩
  · intro s k
    simp [resolveSend]
  · intro s data h
    simp [resolveSend, h]
  · intro msgs w r e
    by_cases hany :
        (displayBase msgs w r).any (fun m => m.role == Role.assistant && m.content == e) = true
    · refine ⟨Or.inl (by simp [displayMessages, hany]), ?_, ?_⟩
      · intro _
        rw [List.any_eq_true] at hany
        obtain ⟨m, hm, hmm⟩ := hany
        rw [Bool.and_eq_true, beq_iff_eq, beq_iff_eq] at hmm
        exact ⟨m, hm, hmm⟩
      · intro _
        simp [displayMessages, hany]
    · refine ⟨Or.inr (by simp [displayMessages, hany]), ?_, ?_⟩
      · intro heq
        exfalso
        have hd : displayMessages msgs w r (some e)
            = displayBase msgs w r ++ [⟨Role.assistant, e⟩] := by
          simp [displayMessages, hany]
        have h3 : (displayBase msgs w r).length + 1 = (displayBase msgs w r).length := by
          simpa using congrArg List.length (hd.symm.trans heq)
        omega
      · intro hex
        exfalso
        apply hany
        rw [List.any_eq_true]
        obtain ⟨m, hm, h1, h2⟩ := hex
        exact ⟨m, hm, by rw [Bool.and_eq_true, beq_iff_eq, beq_iff_eq]; exact ⟨h1, h2⟩⟩

/-- Witness for the amended C4: a falsy reply content appends the
General error to an empty log. -/
theorem c4_error_injection_witness :
    contentTruthy (ChatData.mk (some ("")) none).content = false ∧
    (resolveSend connectedState (Except.ok ⟨some (""), none⟩)).messages
      = [⟨Role.assistant, ERROR_GENERAL⟩] := by
  refine ⟨by decide, ?_⟩
  have h := c4_error_injection.2.1 connectedState ⟨some (""), none⟩ (by decide)
  simpa using h

theorem pollHealth_agree {st : AppState} {h : String} (hag : (h == "ok") = st.isConnected) :
    pollHealth st (ProbeOutcome.status h) = st := by
  obtain ⟨ms, c0, w0, r0, e0, cl0⟩ := st
  simp only at hag
  cases cl0 <;> cases r0 <;> cases c0 <;>
    simp_all [pollHealth]

/-- Claim C8: polling is idempotent: a repeated identical probe
outcome never changes the state again; any sequence of probes agreeing
with the current connectivity leaves the state entirely unchanged; no
poll ever touches the reconnecting phase; and a disagreeing status
flips the connected flag directly. -/
theorem c8_poll_idempotent :
    (∀ (st : AppState) (p : ProbeOutcome),
      pollHealth (pollHealth st p) p = pollHealth st p) ∧
    (∀ (st : AppState) (hs : List String),
      (∀ h ∈ hs, (h == "ok") = st.isConnected) →
      List.foldl (fun a h => pollHealth a (ProbeOutcome.status h)) st hs = st) ∧
    (∀ (st : AppState) (p : ProbeOutcome),
      (pollHealth st p).isReconnecting = st.isReconnecting) ∧
    (∀ (st : AppState) (h : String), st.hasClient = true → st.isReconnecting = false →
      (h == "ok") = (!st.isConnected) →
      (pollHealth st (ProbeOutcome.status h)).isConnected = !st.isConnected) := by
  refine ⟨?_, ?_, ?_, ?_⟩
  · intro st p
    obtain ⟨ms, c0, w0, r0, e0, cl0⟩ := st
    rcases p with h | _
    · cases cl0 <;> cases r0 <;> cases hok : (h == "ok") <;> cases c0 <;>
        simp [pollHealth, hok]
    · cases cl0 <;> cases r0 <;> cases c0 <;>
        simp [pollHealth]
  · intro st hs
    induction hs with
    | nil => intro _; rfl
    | cons h hs ih =>
      intro hag
      rw [List.foldl_cons, pollHealth_agree (hag h (by simp))]
      exact ih (fun h2 hm => hag h2 (by simp [hm]))
  · intro st p
    obtain ⟨ms, c0, w0, r0, e0, cl0⟩ := st
    rcases p with h | _
    · cases cl0 <;> cases r0 <;> cases hok : (h == "ok") <;> cases c0 <;>
        simp [pollHealth, hok]
    · cases cl0 <;> cases r0 <;> cases c0 <;>
        simp [pollHealth]
  · intro st h hcl hrc hdis
    obtain ⟨ms, c0, w0, r0, e0, cl0⟩ := st
    simp only at hcl hrc hdis
    subst hcl; subst hrc
    cases c0 <;> simp_all [pollHealth]

/-- Witness for C8: two agreeing probes leave the connected state
untouched, and a disagreeing probe flips a disconnected state to
connected. -/
theorem c8_poll_idempotent_witness :
    (∀ h ∈ ["ok", "ok"], (h == "ok") = connectedState.isConnected) ∧
    List.foldl (fun a h => pollHealth a (ProbeOutcome.status h)) connectedState ["ok", "ok"]
      = connectedState ∧
    (pollHealth { connectedState with isConnected := false }
        (ProbeOutcome.status ("ok"))).isConnected = true := by
  refine ⟨by decide, ?_, ?_⟩
  · exact c8_poll_idempotent.2.1 connectedState ["ok", "ok"] (by decide)
  · exact c8_poll_idempotent.2.2.2 { connectedState with isConnected := false } ("ok")
      rfl rfl (by decide)

/-- Claim C10 counterexample: on an ok response whose parsed JSON body
has no status field, checkHealth returns that body verbatim, so the
result carries no status field; the claim that every outcome yields an
object with a status field is false on the code. -/
theorem c10_health_counterexample :
    checkHealth (HealthFetch.resolved true 200 (Except.ok ⟨none, none⟩)) = ⟨none, none⟩ ∧
    (checkHealth (HealthFetch.resolved true 200 (Except.ok ⟨none, none⟩))).status = none := by
  constructor
  · rfl
  · rfl

/-- Claim C10 amended: checkHealth is total at its interface: every
fetch outcome maps to a returned body, with transport failures, non-ok
responses and body-parse failures all mapped to an error status with a
message, and an ok response returned verbatim, carrying a status field
exactly when the service supplied one. -/
theorem c10_health_total :
    (∀ m : String, checkHealth (HealthFetch.rejected m) = ⟨some ("error"), some m⟩) ∧
    (∀ (code : Nat) (body : Except String HealthBody),
      checkHealth (HealthFetch.resolved false code body)
        = ⟨some ("error"), some ("Health check failed with status " ++ toString code)⟩) ∧
    (∀ (code : Nat) (b : HealthBody),
      checkHealth (HealthFetch.resolved true code (Except.ok b)) = b) ∧
    (∀ (code : Nat) (m : String),
      checkHealth (HealthFetch.resolved true code (Except.error m))
        = ⟨some ("error"), some m⟩) :=
  ⟨fun _ => rfl, fun _ _ => rfl, fun _ _ => rfl, fun _ _ => rfl⟩
